import Mathlib

/-!
Verification of the client-side data-editing core of the `excel_bulk_upload`
web application: the tabular data store (zustand), the duplicate detector and
validation helpers (zod), and the school-suggestion service. Each definition
below is a shallow embedding of the corresponding TypeScript function.
-/

/-- Scalar values held in spreadsheet cells, modelling the JavaScript
primitive values that can appear in the `unknown`-typed fields of an
`ExcelRow`: `undefined`, `null`, booleans, numbers (modelled as rationals)
and strings. -/
inductive Value where
  | undef : Value
  | null : Value
  | bool : Bool → Value
  | num : ℚ → Value
  | str : String → Value
deriving DecidableEq

/-- A spreadsheet row (`ExcelRow`): a JavaScript object, modelled as an
association list from property names to values; the `"id"` property holds
the row identifier. Lookup and update act on the first binding of a key,
matching object semantics. -/
abbrev Row := List (String × Value)

/-- Property read `row[k]`: the value of the first binding of `k`,
`undefined` when the property is absent. -/
def getField : Row → String → Value
  | [], _ => .undef
  | (k', v) :: rest, k => if k' = k then v else getField rest k

/-- Property write `{ ...row, [k]: v }`: replaces the binding of `k`,
appending a new binding when `k` is absent. -/
def setField : Row → String → Value → Row
  | [], k, v => [(k, v)]
  | (k', v') :: rest, k, v =>
    if k' = k then (k, v) :: rest else (k', v') :: setField rest k v

/-- The non-emptiness test of the duplicate detector:
`keyValue !== undefined && keyValue !== null && keyValue !== ""`. -/
def nonEmptyV (v : Value) : Bool :=
  !(v == Value.undef) && !(v == Value.null) && !(v == Value.str "")

/-- The key value of the row at position `j` of the data array (`undefined`
beyond the end). -/
def keyAtD (data : List Row) (key : String) (j : ℕ) : Value :=
  getField (data.getD j []) key

/-- The `data.forEach((row, index) => ...)` positions: the rows of a list paired
with their indices, starting at `n`. -/
def positionsFrom (n : ℕ) : List Row → List (ℕ × Row)
  | [] => []
  | r :: rest => (n, r) :: positionsFrom (n + 1) rest

/-- The check `seen.has(v)` for the `Map<unknown, number>` of `findDuplicates`. -/
def seenHas (seen : List (Value × ℕ)) (v : Value) : Bool :=
  seen.any (fun p => p.1 == v)

/-- The `forEach` loop of `findDuplicates`: walks the indexed rows keeping
the value-to-first-seen-index map, emitting the index of every later
occurrence of a non-empty key value. -/
def findDupGo (key : String) : List (ℕ × Row) → List (Value × ℕ) → List ℕ
  | [], _ => []
  | (i, r) :: rest, seen =>
    let kv := getField r key
    if nonEmptyV kv then
      if seenHas seen kv then i :: findDupGo key rest seen
      else findDupGo key rest ((kv, i) :: seen)
    else findDupGo key rest seen

/-- The function `findDuplicates(data, uniqueKey)` from the validation module: indices of
rows whose non-empty key value already occurred earlier. -/
def findDuplicates (data : List Row) (key : String) : List ℕ :=
  findDupGo key (positionsFrom 0 data) []

/-- The stateful `filter` callback of `removeDuplicates`, with the `seen`
set made explicit: keeps rows with empty key values and first occurrences,
drops later occurrences. -/
def removeDupGo (key : String) : List Row → List Value → List Row
  | [], _ => []
  | r :: rest, seen =>
    let kv := getField r key
    if !nonEmptyV kv then r :: removeDupGo key rest seen
    else if seen.contains kv then removeDupGo key rest seen
    else r :: removeDupGo key rest (kv :: seen)

/-- The function `removeDuplicates(data, uniqueKey)` from the validation module. -/
def removeDuplicates (data : List Row) (key : String) : List Row :=
  removeDupGo key data []

/-- A cell-level validation error (`CellError`); `row` is a positional
index (`-1` marks file-level errors). -/
structure CellError where
  row : ℤ
  column : String
  message : String
  value : Value
deriving DecidableEq

/-- A school record returned by the suggestion service (`School`). -/
structure School where
  id : String
  name : String
  location : Option String
  type : Option String
deriving DecidableEq

/-- The autocomplete substate of the store (`AutocompleteState`). -/
structure AutocompleteState where
  activeCellKey : Option String
  searchQuery : String
  suggestions : List School
  isLoading : Bool
  highlightedIndex : ℤ
deriving DecidableEq

/-- The zustand store state (`ExcelUploadState`): dataset, derived error
and duplicate sets, pagination, selection, dialog and autocomplete state. -/
structure StoreState where
  data : List Row
  cellErrors : List CellError
  duplicates : List ℕ
  isProcessing : Bool
  fileName : Option String
  currentPage : ℤ
  pageSize : ℤ
  columns : List String
  selectedRowIds : List String
  isDeleteDialogOpen : Bool
  autocomplete : AutocompleteState
deriving DecidableEq

/-- The constant `initialAutocompleteState` from the store module. -/
def initialAutocompleteState : AutocompleteState :=
  { activeCellKey := none
    searchQuery := ""
    suggestions := []
    isLoading := false
    highlightedIndex := -1 }

/-- The constant `initialState` from the store module. -/
def initialState : StoreState :=
  { data := []
    cellErrors := []
    duplicates := []
    isProcessing := false
    fileName := none
    currentPage := 1
    pageSize := 10
    columns := []
    selectedRowIds := []
    isDeleteDialogOpen := false
    autocomplete := initialAutocompleteState }

/-- The callback of `updateCell`'s
`data.map((row, index) => index === rowIndex ? { ...row, [column]: value } : row)`,
with the running index made explicit (the row index argument is an
arbitrary JavaScript number, hence an integer). -/
def updateRows (i : ℤ) (col : String) (v : Value) : List Row → ℕ → List Row
  | [], _ => []
  | r :: rest, n =>
    (if (n : ℤ) = i then setField r col v else r) :: updateRows i col v rest (n + 1)

/-- Store action `updateCell(rowIndex, column, value)`: rewrites only the
`data` field of the state. -/
def updateCell (st : StoreState) (rowIndex : ℤ) (column : String) (value : Value) :
    StoreState :=
  { st with data := updateRows rowIndex column value st.data 0 }

/-- Store action `setCurrentPage(page)`. -/
def setCurrentPage (st : StoreState) (page : ℤ) : StoreState :=
  { st with currentPage := page }

/-- Store action `setPageSize(size)`: changes the page size and resets to
the first page. -/
def setPageSize (st : StoreState) (size : ℤ) : StoreState :=
  { st with pageSize := size, currentPage := 1 }

/-- The check `state.selectedRowIds.has(row.id)`: the selection is a set of id
strings, so a row matches only when its `id` property is a string in the
set. -/
def rowSelected (sel : List String) (r : Row) : Bool :=
  match getField r "id" with
  | .str s => sel.contains s
  | _ => false

/-- Store action `deleteSelectedRows()`: keeps the rows whose identifier is
not selected, clears the selection and closes the delete dialog. -/
def deleteSelectedRows (st : StoreState) : StoreState :=
  { st with
    data := st.data.filter (fun r => !rowSelected st.selectedRowIds r)
    selectedRowIds := []
    isDeleteDialogOpen := false }

/-- Store action `openDeleteDialog()`: opens the dialog only when some row
is selected (`state.selectedRowIds.size > 0`), otherwise returns an empty
update, leaving the state unchanged. -/
def openDeleteDialog (st : StoreState) : StoreState :=
  if st.selectedRowIds.length > 0 then { st with isDeleteDialogOpen := true } else st

/-- JavaScript truthiness of a `string | null` value (`null` and the empty
string are falsy). -/
def jsTruthy : Option String → Bool
  | none => false
  | some s => !(s == "")

/-- Store action `setActiveAutocompleteCell(cellKey)`: activates the given
cell; the suggestion list is kept when the new key is truthy and cleared
only when it is null/empty (`cellKey ? state.autocomplete.suggestions : []`);
the highlighted index always resets to `-1`. -/
def setActiveAutocompleteCell (st : StoreState) (cellKey : Option String) : StoreState :=
  { st with
    autocomplete :=
      { st.autocomplete with
        activeCellKey := cellKey
        suggestions := if jsTruthy cellKey then st.autocomplete.suggestions else []
        highlightedIndex := -1 } }

/-- The expression `Math.ceil(data.length / pageSize)` as computed by the data-table
component, for the positive page sizes the page-size selector offers. -/
def totalPages (st : StoreState) : ℤ :=
  ((st.data.length : ℤ) + st.pageSize - 1) / st.pageSize

/-- The map `s.toLowerCase()` on the character list of a string (the source data is
basic latin, for which JavaScript and `Char.toLower` agree). -/
def jsLower (cs : List Char) : List Char := cs.map Char.toLower

/-- The map `s.trim()` on the character list of a string: drops leading and
trailing whitespace. -/
def jsTrim (cs : List Char) : List Char :=
  ((cs.dropWhile Char.isWhitespace).reverse.dropWhile Char.isWhitespace).reverse

/-- The test `hay.includes(needle)`: substring containment. -/
def includesSub (needle : List Char) : List Char → Bool
  | [] => needle.isEmpty
  | c :: rest => needle.isPrefixOf (c :: rest) || includesSub needle rest

/-- The `MOCK_SCHOOLS` table of the school API service. -/
def MOCK_SCHOOLS : List School :=
  [ ⟨"1", "Springfield Elementary School", some "Springfield", some "public"⟩
  , ⟨"2", "Springfield High School", some "Springfield", some "public"⟩
  , ⟨"3", "Riverside Academy", some "Riverside", some "private"⟩
  , ⟨"4", "Riverside Middle School", some "Riverside", some "public"⟩
  , ⟨"5", "Oak Grove Elementary", some "Oak Grove", some "public"⟩
  , ⟨"6", "Oak Grove High School", some "Oak Grove", some "public"⟩
  , ⟨"7", "Westside Preparatory Academy", some "Westside", some "private"⟩
  , ⟨"8", "Westside Charter School", some "Westside", some "charter"⟩
  , ⟨"9", "Central City Academy", some "Central City", some "private"⟩
  , ⟨"10", "Central High School", some "Central City", some "public"⟩
  , ⟨"11", "Northview Elementary", some "Northview", some "public"⟩
  , ⟨"12", "Northview Middle School", some "Northview", some "public"⟩
  , ⟨"13", "Southside Academy", some "Southside", some "private"⟩
  , ⟨"14", "Lakeside Academy", some "Lakeside", some "private"⟩
  , ⟨"15", "Mountain View School", some "Mountain View", some "public"⟩
  , ⟨"16", "Valley Heights Academy", some "Valley Heights", some "private"⟩ ]

/-- The value `fetchSchools(query)` resolves to (the mock lookup, with the
simulated latency and the abort signal stripped: this is the resolved list
of an uncancelled call). Below the two-character minimum it is empty
without any lookup; otherwise the mock table is filtered by
case-insensitive substring match on the name and capped at 10 results. -/
def fetchSchools (query : String) : List School :=
  if query.data.isEmpty || decide ((jsTrim query.data).length < 2) then []
  else
    (MOCK_SCHOOLS.filter
      (fun s => includesSub (jsTrim (jsLower query.data)) (jsLower s.name.data))).take 10

/-- Digit-string value, as accumulated by a decimal parser. -/
def digitsToNat (ds : List Char) : ℕ :=
  ds.foldl (fun a c => a * 10 + (c.toNat - 48)) 0

/-- Unsigned decimal literal `digits [ '.' digits ]` (at least one digit
overall), as accepted by JavaScript numeric string conversion; anything
else is NaN (`none`). -/
def parseDecimal (cs : List Char) : Option ℚ :=
  let ip := cs.takeWhile Char.isDigit
  let rest := cs.dropWhile Char.isDigit
  match rest with
  | [] => if ip.isEmpty then none else some (digitsToNat ip : ℚ)
  | '.' :: rest2 =>
    let fp := rest2.takeWhile Char.isDigit
    let rest3 := rest2.dropWhile Char.isDigit
    if rest3.isEmpty && !(ip.isEmpty && fp.isEmpty) then
      some ((digitsToNat ip : ℚ) + (digitsToNat fp : ℚ) / ((10 : ℚ) ^ fp.length))
    else none
  | _ => none

/-- JavaScript `Number(string)`: whitespace is trimmed, the empty string is
`0`, an optional sign precedes a decimal literal (the model covers the
decimal forms; exotic forms such as hex or exponents do not occur in the
age column and are mapped to NaN). -/
def strToNumber (s : String) : Option ℚ :=
  match jsTrim s.data with
  | [] => some 0
  | '-' :: rest => (parseDecimal rest).map (fun q => -q)
  | '+' :: rest => parseDecimal rest
  | cs => parseDecimal cs

/-- JavaScript `Number(value)` — the coercion performed by
`z.coerce.number()`; `none` is NaN. -/
def jsToNumber : Value → Option ℚ
  | .undef => none
  | .null => some 0
  | .bool b => some (if b then 1 else 0)
  | .num q => some q
  | .str s => strToNumber s

/-- The age field rule
`z.coerce.number({...}).int({...}).min(0, {...}).max(150, {...})`:
the checks run in declaration order and the first failing check supplies
the reported message (`result.error.issues[0].message`). -/
def ageCheck (v : Value) : Option String :=
  match jsToNumber v with
  | none => some "Age must be a number"
  | some q =>
    if q.den ≠ 1 then some "Age must be a whole number"
    else if q < 0 then some "Age cannot be negative"
    else if 150 < q then some "Age cannot exceed 150"
    else none

/-- The function `validateCell(column, value, row)` on the age column (`column = "age"`
is in the schema shape, so the field schema above runs; a failure is
wrapped into a `CellError` carrying the first issue's message). -/
def validateCellAge (value : Value) (row : ℤ) : Option CellError :=
  (ageCheck value).map (fun msg => { row := row, column := "age", message := msg, value := value })

/-- Rows whose email values follow the pattern A, B, A, A, C used by the
spec's duplicate-detection example. -/
def exRows : List Row :=
  [ [("id", Value.str "r1"), ("email", Value.str "A")]
  , [("id", Value.str "r2"), ("email", Value.str "B")]
  , [("id", Value.str "r3"), ("email", Value.str "A")]
  , [("id", Value.str "r4"), ("email", Value.str "A")]
  , [("id", Value.str "r5"), ("email", Value.str "C")] ]

/-- A one-row store used as concrete input for the cell-update theorems. -/
def stW3 : StoreState :=
  { initialState with
    data := [[("id", Value.str "r1"), ("email", Value.str "a@b.c")]]
    columns := ["email"] }

/-- A store with an active autocomplete session holding suggestions, used
as concrete input for the session-switch theorems. -/
def stC4 : StoreState :=
  { initialState with
    data := [[("id", Value.str "r1"), ("school", Value.str "Spr")]]
    autocomplete :=
      { activeCellKey := some "r1-school"
        searchQuery := "Spr"
        suggestions := [⟨"1", "Springfield Elementary School", some "Springfield", some "public"⟩]
        isLoading := false
        highlightedIndex := 0 } }

/-- Twenty-three one-field rows with identifiers "1" … "23". -/
def rows23 : List Row :=
  (List.range 23).map (fun n => [("id", Value.str (toString (n + 1)))])

/-- A store on page 3 of 23 rows (page size 10) with the rows "4" … "23"
selected, used as concrete input for the pagination-clamp theorem. -/
def stC5 : StoreState :=
  { initialState with
    data := rows23
    currentPage := 3
    pageSize := 10
    selectedRowIds := (List.range 20).map (fun n => toString (n + 4)) }

/-- A two-row store with one row selected, used as concrete input for the
deletion and delete-dialog theorems. -/
def stC6 : StoreState :=
  { initialState with
    data :=
      [ [("id", Value.str "r1"), ("email", Value.str "A")]
      , [("id", Value.str "r2"), ("email", Value.str "B")] ]
    selectedRowIds := ["r2"] }
theorem getField_setField_same (r : Row) (k : String) (v : Value) :
    getField (setField r k v) k = v := by
  induction r with
  | nil => simp [setField, getField]
  | cons p rest ih =>
    rcases p with ⟨pk, pv⟩
    by_cases h : pk = k
    · simp [setField, getField, h]
    · simp [setField, getField, h, ih]

theorem getField_setField_ne (r : Row) (k c : String) (v : Value) (h : c ≠ k) :
    getField (setField r k v) c = getField r c := by
  induction r with
  | nil => simp [setField, getField, Ne.symm h]
  | cons p rest ih =>
    rcases p with ⟨pk, pv⟩
    by_cases hp : pk = k
    · subst hp
      simp [setField, getField, Ne.symm h]
    · simp [setField, getField, hp, ih]

theorem updateRows_length (i : ℤ) (col : String) (v : Value) :
    ∀ (rows : List Row) (n : ℕ), (updateRows i col v rows n).length = rows.length := by
  intro rows
  induction rows with
  | nil => intro n; rfl
  | cons r rest ih => intro n; simp [updateRows, ih]

theorem updateRows_getD (i : ℤ) (col : String) (v : Value) :
    ∀ (rows : List Row) (n j : ℕ), j < rows.length →
      (updateRows i col v rows n).getD j [] =
        if ((n + j : ℕ) : ℤ) = i then setField (rows.getD j []) col v else rows.getD j [] := by
  intro rows
  induction rows with
  | nil => intro n j h; simp at h
  | cons r rest ih =>
    intro n j h
    cases j with
    | zero => simp [updateRows]
    | succ j' =>
      simp only [updateRows, List.getD_cons_succ]
      rw [ih (n + 1) j' (by simpa using h)]
      have heq : ((n + 1 + j' : ℕ) : ℤ) = ((n + (j' + 1) : ℕ) : ℤ) := by push_cast; ring
      rw [heq]

theorem updateRows_id (i : ℤ) (col : String) (v : Value) :
    ∀ (rows : List Row) (n : ℕ), (∀ j, j < rows.length → ((n + j : ℕ) : ℤ) ≠ i) →
      updateRows i col v rows n = rows := by
  intro rows
  induction rows with
  | nil => intro n _; rfl
  | cons r rest ih =>
    intro n h
    have h0 : ((n : ℕ) : ℤ) ≠ i := by simpa using h 0 (by simp)
    simp only [updateRows, if_neg h0]
    rw [ih (n + 1)]
    intro j hj
    have hx := h (j + 1) (by simpa using Nat.succ_lt_succ hj)
    intro hc; apply hx; push_cast at hc ⊢; omega

theorem keyAtD_ge (data : List Row) (key : String) (j : ℕ) (h : data.length ≤ j) :
    keyAtD data key j = Value.undef := by
  unfold keyAtD
  rw [List.getD_eq_getElem?_getD, List.getElem?_eq_none (by simpa using h)]
  rfl

theorem seenHas_cons (a : Value) (b : ℕ) (seen : List (Value × ℕ)) (v : Value) :
    seenHas ((a, b) :: seen) v = ((a == v) || seenHas seen v) := by
  simp [seenHas]

theorem findDupGo_mem (key : String) (data : List Row) :
    ∀ (n : ℕ) (seen : List (Value × ℕ)) (i : ℕ),
      i ∈ findDupGo key (positionsFrom n data) seen ↔
        ∃ j, j < data.length ∧ i = n + j ∧ nonEmptyV (keyAtD data key j) = true ∧
          (seenHas seen (keyAtD data key j) = true ∨
            ∃ m, m < j ∧ keyAtD data key m = keyAtD data key j) := by
  induction data with
  | nil =>
    intro n seen i
    simp [positionsFrom, findDupGo]
  | cons r rest ih =>
    intro n seen i
    have hk0 : keyAtD (r :: rest) key 0 = getField r key := rfl
    have hkS : ∀ j : ℕ, keyAtD (r :: rest) key (j + 1) = keyAtD rest key j := fun _ => rfl
    by_cases hkv : nonEmptyV (getField r key) = true
    · by_cases hs : seenHas seen (getField r key) = true
      · -- repeated non-empty head value: index n is emitted, seen unchanged
        simp only [positionsFrom, findDupGo, hkv, hs, if_true, List.mem_cons]
        rw [ih (n + 1) seen i]
        constructor
        · rintro (rfl | ⟨j, hj, rfl, hne, hcond⟩)
          · exact ⟨0, by simp, by simp, by simpa [hk0] using hkv, Or.inl (by simpa [hk0] using hs)⟩
          · refine ⟨j + 1, by simpa using Nat.succ_lt_succ hj, by omega, by simpa [hkS] using hne, ?_⟩
            rcases hcond with h | ⟨m, hm, hve⟩
            · exact Or.inl (by simpa [hkS] using h)
            · exact Or.inr ⟨m + 1, by omega, by simpa [hkS] using hve⟩
        · rintro ⟨j, hj, rfl, hne, hcond⟩
          cases j with
          | zero => exact Or.inl (by omega)
          | succ j' =>
            right
            refine ⟨j', by simpa using hj, by omega, by simpa [hkS] using hne, ?_⟩
            rcases hcond with h | ⟨m, hm, hve⟩
            · exact Or.inl (by simpa [hkS] using h)
            · cases m with
              | zero =>
                rw [hk0, hkS] at hve
                exact Or.inl (by rw [← hve]; exact hs)
              | succ m' => exact Or.inr ⟨m', by omega, by simpa [hkS] using hve⟩
      · -- fresh non-empty head value: recorded in seen, nothing emitted
        have hsf : seenHas seen (getField r key) = false := by simpa using hs
        simp only [positionsFrom, findDupGo, hkv, hsf, if_true, if_false, Bool.false_eq_true]
        rw [ih (n + 1) ((getField r key, n) :: seen) i]
        constructor
        · rintro ⟨j, hj, rfl, hne, hcond⟩
          refine ⟨j + 1, by simpa using Nat.succ_lt_succ hj, by omega, by simpa [hkS] using hne, ?_⟩
          rcases hcond with h | ⟨m, hm, hve⟩
          · rw [seenHas_cons] at h
            rcases Bool.or_eq_true_iff.mp h with h1 | h2
            · exact Or.inr ⟨0, by omega, by rw [hk0, hkS]; exact (beq_iff_eq.mp h1)⟩
            · exact Or.inl (by simpa [hkS] using h2)
          · exact Or.inr ⟨m + 1, by omega, by simpa [hkS] using hve⟩
        · rintro ⟨j, hj, rfl, hne, hcond⟩
          cases j with
          | zero =>
            exfalso
            rw [hk0] at hcond
            rcases hcond with h | ⟨m, hm, _⟩
            · exact hs h
            · omega
          | succ j' =>
            refine ⟨j', by simpa using hj, by omega, by simpa [hkS] using hne, ?_⟩
            rcases hcond with h | ⟨m, hm, hve⟩
            · rw [hkS] at h
              exact Or.inl (by rw [seenHas_cons, h, Bool.or_true])
            · cases m with
              | zero =>
                rw [hk0, hkS] at hve
                left
                rw [seenHas_cons, hve]
                simp
              | succ m' => exact Or.inr ⟨m', by omega, by simpa [hkS] using hve⟩
    · -- empty head key value: skipped entirely
      have hkvf : nonEmptyV (getField r key) = false := by simpa using hkv
      simp only [positionsFrom, findDupGo, hkvf, if_false, Bool.false_eq_true]
      rw [ih (n + 1) seen i]
      constructor
      · rintro ⟨j, hj, rfl, hne, hcond⟩
        refine ⟨j + 1, by simpa using Nat.succ_lt_succ hj, by omega, by simpa [hkS] using hne, ?_⟩
        rcases hcond with h | ⟨m, hm, hve⟩
        · exact Or.inl (by simpa [hkS] using h)
        · exact Or.inr ⟨m + 1, by omega, by simpa [hkS] using hve⟩
      · rintro ⟨j, hj, rfl, hne, hcond⟩
        cases j with
        | zero =>
          rw [hk0] at hne
          exact absurd hne (by simp [hkvf])
        | succ j' =>
          refine ⟨j', by simpa using hj, by omega, by simpa [hkS] using hne, ?_⟩
          rcases hcond with h | ⟨m, hm, hve⟩
          · exact Or.inl (by simpa [hkS] using h)
          · cases m with
            | zero =>
              exfalso
              rw [hk0, hkS] at hve
              have hne' : nonEmptyV (keyAtD rest key j') = true := by simpa [hkS] using hne
              rw [← hve] at hne'
              rw [hkvf] at hne'
              exact Bool.false_ne_true hne'
            | succ m' => exact Or.inr ⟨m', by omega, by simpa [hkS] using hve⟩

theorem findDuplicates_mem (data : List Row) (key : String) (i : ℕ) :
    i ∈ findDuplicates data key ↔
      nonEmptyV (keyAtD data key i) = true ∧
        ∃ j, j < i ∧ keyAtD data key j = keyAtD data key i := by
  unfold findDuplicates
  rw [findDupGo_mem]
  constructor
  · rintro ⟨j, hj, rfl, hne, hcond⟩
    simp only [Nat.zero_add] at *
    refine ⟨hne, ?_⟩
    rcases hcond with h | hex
    · simp [seenHas] at h
    · exact hex
  · rintro ⟨hne, j, hji, heq⟩
    have hi : i < data.length := by
      by_contra hge
      rw [keyAtD_ge data key i (by omega)] at hne
      simp [nonEmptyV] at hne
    exact ⟨i, hi, by omega, hne, Or.inr ⟨j, hji, heq⟩⟩

theorem positionsFrom_shift (l : List Row) :
    ∀ n, positionsFrom (n + 1) l = (positionsFrom n l).map (fun p => (p.1 + 1, p.2)) := by
  induction l with
  | nil => intro n; rfl
  | cons r rest ih =>
    intro n
    simp only [positionsFrom, List.map_cons]
    rw [ih (n + 1)]

theorem removeDupGo_sublist (key : String) :
    ∀ (data : List Row) (seen : List Value), (removeDupGo key data seen).Sublist data := by
  intro data
  induction data with
  | nil => intro seen; simp [removeDupGo]
  | cons r rest ih =>
    intro seen
    simp only [removeDupGo]
    by_cases h1 : nonEmptyV (getField r key) = true
    · simp only [h1, Bool.not_true, Bool.false_eq_true, if_false]
      by_cases h2 : List.contains seen (getField r key) = true
      · simp only [h2, if_true]
        exact (ih seen).trans (List.sublist_cons_self r rest)
      · simp only [(by simpa using h2 : List.contains seen (getField r key) = false),
          Bool.false_eq_true, if_false]
        exact (ih _).cons₂ r
    · simp only [(by simpa using h1 : nonEmptyV (getField r key) = false), Bool.not_false, if_true]
      exact (ih seen).cons₂ r

theorem removeDupGo_idem (key : String) :
    ∀ (data : List Row) (seen : List Value),
      removeDupGo key (removeDupGo key data seen) seen = removeDupGo key data seen := by
  intro data
  induction data with
  | nil => intro seen; rfl
  | cons r rest ih =>
    intro seen
    by_cases h1 : nonEmptyV (getField r key) = true
    · by_cases h2 : List.contains seen (getField r key) = true
      · simp only [removeDupGo, h1, h2, Bool.not_true, Bool.false_eq_true, if_false, if_true]
        exact ih seen
      · have h2f : List.contains seen (getField r key) = false := by simpa using h2
        simp only [removeDupGo, h1, h2f, Bool.not_true, Bool.false_eq_true, if_false]
        rw [ih (getField r key :: seen)]
    · have h1f : nonEmptyV (getField r key) = false := by simpa using h1
      simp only [removeDupGo, h1f, Bool.not_false, if_true]
      rw [ih seen]

theorem forall_lt_succ_split (j : ℕ) (P : ℕ → Prop) :
    (∀ m, m < j + 1 → P m) ↔ (P 0 ∧ ∀ m, m < j → P (m + 1)) := by
  constructor
  · intro h
    exact ⟨h 0 (by omega), fun m hm => h (m + 1) (by omega)⟩
  · rintro ⟨h0, hrest⟩ m hm
    cases m with
    | zero => exact h0
    | succ m' => exact hrest m' (by omega)

theorem removeDupGo_eq (key : String) :
    ∀ (data : List Row) (seen : List Value),
      removeDupGo key data seen =
        ((positionsFrom 0 data).filter
          (fun p => !nonEmptyV (getField p.2 key) ||
            (!(seen.contains (getField p.2 key)) &&
              decide (∀ m, m < p.1 → keyAtD data key m ≠ getField p.2 key)))).map Prod.snd := by
  intro data
  induction data with
  | nil => intro seen; rfl
  | cons r rest ih =>
    intro seen
    have hpos : positionsFrom 0 (r :: rest) = (0, r) :: positionsFrom 1 rest := rfl
    by_cases h1 : nonEmptyV (getField r key) = true
    · by_cases h2 : List.contains seen (getField r key) = true
      · -- non-empty key value already seen: the head row is dropped
        have h2m : getField r key ∈ seen := by simpa using h2
        simp only [removeDupGo, h1, h2, Bool.not_true, Bool.false_eq_true, if_false, if_true]
        rw [hpos, List.filter_cons_of_neg (by simp [h1, h2m]),
          positionsFrom_shift, List.filter_map, List.map_map, ih seen]
        apply congrArg
        apply List.filter_congr
        intro p _
        simp only [Function.comp_apply]
        rw [Bool.eq_iff_iff]
        simp only [Bool.or_eq_true, Bool.and_eq_true, Bool.not_eq_true', decide_eq_true_eq]
        constructor
        · rintro (h | ⟨hb, hd⟩)
          · exact Or.inl h
          · refine Or.inr ⟨hb, ?_⟩
            rw [forall_lt_succ_split]
            refine ⟨?_, fun m hm => hd m hm⟩
            intro hh
            have hh' : getField r key = getField p.2 key := hh
            rw [← hh'] at hb
            rw [h2] at hb
            simp at hb
        · rintro (h | ⟨hb, hd⟩)
          · exact Or.inl h
          · rw [forall_lt_succ_split] at hd
            exact Or.inr ⟨hb, fun m hm => hd.2 m hm⟩
      · -- fresh non-empty key value: the head row is kept and recorded
        have h2f : List.contains seen (getField r key) = false := by simpa using h2
        have h2m : getField r key ∉ seen := by simpa using h2f
        simp only [removeDupGo, h1, h2f, Bool.not_true, Bool.false_eq_true, if_false]
        rw [hpos, List.filter_cons_of_pos (by simp [h1, h2m]), List.map_cons]
        rw [positionsFrom_shift, List.filter_map, List.map_map, ih (getField r key :: seen)]
        apply congrArg
        apply congrArg
        apply List.filter_congr
        intro p _
        simp only [Function.comp_apply]
        rw [Bool.eq_iff_iff]
        simp only [Bool.or_eq_true, Bool.and_eq_true, Bool.not_eq_true', decide_eq_true_eq,
          List.contains_cons, Bool.or_eq_false_iff, beq_eq_false_iff_ne, ne_eq]
        constructor
        · rintro (h | ⟨⟨hne, hb⟩, hd⟩)
          · exact Or.inl h
          · refine Or.inr ⟨hb, ?_⟩
            rw [forall_lt_succ_split]
            exact ⟨fun hh => hne hh.symm, fun m hm => hd m hm⟩
        · rintro (h | ⟨hb, hd⟩)
          · exact Or.inl h
          · rw [forall_lt_succ_split] at hd
            exact Or.inr ⟨⟨fun hh => hd.1 hh.symm, hb⟩, fun m hm => hd.2 m hm⟩
    · -- empty key value: the head row is always kept
      have h1f : nonEmptyV (getField r key) = false := by simpa using h1
      simp only [removeDupGo, h1f, Bool.not_false, if_true]
      rw [hpos, List.filter_cons_of_pos (by simp [h1f]), List.map_cons]
      rw [positionsFrom_shift, List.filter_map, List.map_map, ih seen]
      apply congrArg
      apply congrArg
      apply List.filter_congr
      intro p _
      simp only [Function.comp_apply]
      rw [Bool.eq_iff_iff]
      simp only [Bool.or_eq_true, Bool.and_eq_true, Bool.not_eq_true', decide_eq_true_eq]
      constructor
      · rintro (h | ⟨hb, hd⟩)
        · exact Or.inl h
        · by_cases hveq : getField r key = getField p.2 key
          · exact Or.inl (by rw [← hveq]; exact h1f)
          · refine Or.inr ⟨hb, ?_⟩
            rw [forall_lt_succ_split]
            exact ⟨fun hh => hveq hh, fun m hm => hd m hm⟩
      · rintro (h | ⟨hb, hd⟩)
        · exact Or.inl h
        · rw [forall_lt_succ_split] at hd
          exact Or.inr ⟨hb, fun m hm => hd.2 m hm⟩

theorem mem_positionsFrom (data : List Row) :
    ∀ (n : ℕ) (p : ℕ × Row), p ∈ positionsFrom n data →
      n ≤ p.1 ∧ p.1 - n < data.length ∧ p.2 = data.getD (p.1 - n) [] := by
  induction data with
  | nil => intro n p hp; simp [positionsFrom] at hp
  | cons r rest ih =>
    intro n p hp
    simp only [positionsFrom, List.mem_cons] at hp
    rcases hp with rfl | hp
    · simp
    · obtain ⟨h1, h2, h3⟩ := ih (n + 1) p hp
      refine ⟨by omega, by simp; omega, ?_⟩
      have : p.1 - n = (p.1 - (n + 1)) + 1 := by omega
      rw [this, List.getD_cons_succ]
      exact h3

theorem removeDuplicates_eq_filter (data : List Row) (key : String) :
    removeDuplicates data key =
      ((positionsFrom 0 data).filter
        (fun p => !decide (p.1 ∈ findDuplicates data key))).map Prod.snd := by
  rw [removeDuplicates, removeDupGo_eq]
  apply congrArg
  apply List.filter_congr
  intro p hp
  obtain ⟨-, hlt, hval⟩ := mem_positionsFrom data 0 p hp
  rw [Nat.sub_zero] at hlt hval
  have hk : keyAtD data key p.1 = getField p.2 key := by rw [keyAtD, ← hval]
  rw [Bool.eq_iff_iff]
  simp only [Bool.or_eq_true, Bool.and_eq_true, Bool.not_eq_true', decide_eq_false_iff_not,
    decide_eq_true_eq]
  have hiff := findDuplicates_mem data key p.1
  rw [hk] at hiff
  rw [hiff]
  constructor
  · rintro (h | ⟨-, hall⟩)
    · rintro ⟨hne, -⟩
      rw [h] at hne
      simp at hne
    · rintro ⟨-, j, hj, heq⟩
      exact hall j hj heq
  · intro h
    by_cases hne : nonEmptyV (getField p.2 key) = true
    · right
      refine ⟨by simp, ?_⟩
      intro m hm heq
      exact h ⟨hne, m, hm, heq⟩
    · left
      simpa using hne

theorem toLower_eq_ite (c : Char) :
    Char.toLower c = if c.toNat ≥ 65 ∧ c.toNat ≤ 90 then Char.ofNat (c.toNat + 32) else c := rfl

theorem isWhitespace_toNat (x : Char) (hx : x.isWhitespace = true) :
    x.toNat = 32 ∨ x.toNat = 9 ∨ x.toNat = 13 ∨ x.toNat = 10 := by
  simp only [Char.isWhitespace, Bool.or_eq_true, decide_eq_true_eq] at hx
  rcases hx with ((h | h) | h) | h <;> subst h <;> decide

theorem isWhitespace_toLower (c : Char) :
    (Char.toLower c).isWhitespace = c.isWhitespace := by
  rw [toLower_eq_ite]
  split
  · rename_i h
    have hv : Char.isValidCharNat (c.toNat + 32) := Or.inl (by omega)
    have ht : (Char.ofNat (c.toNat + 32)).toNat = c.toNat + 32 := by
      rw [Char.ofNat, dif_pos hv]; rfl
    have hl : (Char.ofNat (c.toNat + 32)).isWhitespace = false := by
      cases hb : (Char.ofNat (c.toNat + 32)).isWhitespace with
      | false => rfl
      | true =>
        have := isWhitespace_toNat _ hb
        rw [ht] at this
        omega
    have hr : c.isWhitespace = false := by
      cases hb : c.isWhitespace with
      | false => rfl
      | true =>
        have := isWhitespace_toNat _ hb
        omega
    rw [hl, hr]
  · rfl

theorem jsTrim_jsLower (cs : List Char) : jsTrim (jsLower cs) = jsLower (jsTrim cs) := by
  have hcomp : Char.isWhitespace ∘ Char.toLower = Char.isWhitespace :=
    funext fun c => isWhitespace_toLower c
  unfold jsTrim jsLower
  rw [List.dropWhile_map, hcomp, ← List.map_reverse, List.dropWhile_map, hcomp, ← List.map_reverse]

theorem ageCheck_none_iff (v : Value) :
    ageCheck v = none ↔
      ∃ q : ℚ, jsToNumber v = some q ∧ q.den = 1 ∧ 0 ≤ q ∧ q ≤ 150 := by
  unfold ageCheck
  cases hn : jsToNumber v with
  | none => simp
  | some q =>
    dsimp only
    split_ifs with h1 h2 h3
    · constructor
      · intro h; exact absurd h (by simp)
      · rintro ⟨q', hq, hden, -, -⟩
        cases hq
        exact absurd hden h1
    · constructor
      · intro h; exact absurd h (by simp)
      · rintro ⟨q', hq, -, hge, -⟩
        cases hq
        exact absurd hge (not_le.mpr h2)
    · constructor
      · intro h; exact absurd h (by simp)
      · rintro ⟨q', hq, -, -, hle⟩
        cases hq
        exact absurd hle (not_le.mpr h3)
    · constructor
      · intro _
        exact ⟨q, rfl, not_not.mp h1, le_of_not_lt h2, le_of_not_lt h3⟩
      · intro _; rfl

/-- C1: for every row list and key field, `findDuplicates` returns exactly
the positions whose key value is non-empty and equals the key value of some
earlier row; first occurrences and rows with empty/absent key values are
never returned; on key values A, B, A, A, C it returns the positions 2 and 3
(0-indexed) and never position 0. -/
theorem findDuplicates_spec :
    (∀ (data : List Row) (key : String) (i : ℕ),
      i ∈ findDuplicates data key ↔
        nonEmptyV (keyAtD data key i) = true ∧
          ∃ j, j < i ∧ keyAtD data key j = keyAtD data key i) ∧
    findDuplicates exRows "email" = [2, 3] ∧
    0 ∉ findDuplicates exRows "email" :=
  ⟨findDuplicates_mem, by decide, by decide⟩

/-- C2: `removeDuplicates` keeps exactly the rows at positions not flagged
by `findDuplicates` (the first occurrence of each non-empty key value plus
every row with an empty/absent key value), unchanged and in the original
relative order (a sublist of the input), it is idempotent, and on the
A, B, A, A, C example it returns the A, B, C rows. -/
theorem removeDuplicates_spec :
    (∀ (data : List Row) (key : String),
      removeDuplicates data key =
        ((positionsFrom 0 data).filter
          (fun p => !decide (p.1 ∈ findDuplicates data key))).map Prod.snd) ∧
    (∀ (data : List Row) (key : String), (removeDuplicates data key).Sublist data) ∧
    (∀ (data : List Row) (key : String),
      removeDuplicates (removeDuplicates data key) key = removeDuplicates data key) ∧
    removeDuplicates exRows "email" =
      [ [("id", Value.str "r1"), ("email", Value.str "A")]
      , [("id", Value.str "r2"), ("email", Value.str "B")]
      , [("id", Value.str "r5"), ("email", Value.str "C")] ] :=
  ⟨removeDuplicates_eq_filter,
   fun data key => removeDupGo_sublist key data [],
   fun data key => removeDupGo_idem key data [],
   by decide⟩

/-- C3 (amended): for an in-range row position, `updateCell` rewrites only
the named field of the addressed row: the new value is stored, every other
field of that row — in particular the identifier whenever the named column
is not `"id"` — is preserved, every other row is untouched, and all
non-data state (errors, duplicates, pagination, selection, dialog,
autocomplete) is unchanged, so no revalidation happens. Updating column
`"id"` itself, however, replaces the identifier. -/
theorem updateCell_frame (st : StoreState) (i : ℤ) (col : String) (v : Value)
    (h0 : 0 ≤ i) (hlen : i < (st.data.length : ℤ)) :
    getField ((updateCell st i col v).data.getD i.toNat []) col = v ∧
    (∀ c : String, c ≠ col →
      getField ((updateCell st i col v).data.getD i.toNat []) c =
        getField (st.data.getD i.toNat []) c) ∧
    (col ≠ "id" →
      getField ((updateCell st i col v).data.getD i.toNat []) "id" =
        getField (st.data.getD i.toNat []) "id") ∧
    (∀ j : ℕ, (j : ℤ) ≠ i → (updateCell st i col v).data.getD j [] = st.data.getD j []) ∧
    (updateCell st i col v).data.length = st.data.length ∧
    (updateCell st i col v).cellErrors = st.cellErrors ∧
    (updateCell st i col v).duplicates = st.duplicates ∧
    (updateCell st i col v).isProcessing = st.isProcessing ∧
    (updateCell st i col v).fileName = st.fileName ∧
    (updateCell st i col v).currentPage = st.currentPage ∧
    (updateCell st i col v).pageSize = st.pageSize ∧
    (updateCell st i col v).columns = st.columns ∧
    (updateCell st i col v).selectedRowIds = st.selectedRowIds ∧
    (updateCell st i col v).isDeleteDialogOpen = st.isDeleteDialogOpen ∧
    (updateCell st i col v).autocomplete = st.autocomplete := by
  have hnat : i.toNat < st.data.length := by omega
  have hcast : ((0 + i.toNat : ℕ) : ℤ) = i := by push_cast; omega
  have hrow : (updateCell st i col v).data.getD i.toNat [] =
      setField (st.data.getD i.toNat []) col v := by
    show (updateRows i col v st.data 0).getD i.toNat [] = _
    rw [updateRows_getD i col v st.data 0 i.toNat hnat, if_pos hcast]
  refine ⟨?_, ?_, ?_, ?_, ?_, rfl, rfl, rfl, rfl, rfl, rfl, rfl, rfl, rfl, rfl⟩
  · rw [hrow, getField_setField_same]
  · intro c hc
    rw [hrow, getField_setField_ne _ _ _ _ hc]
  · intro hid
    rw [hrow, getField_setField_ne _ _ _ _ (Ne.symm hid)]
  · intro j hj
    show (updateRows i col v st.data 0).getD j [] = st.data.getD j []
    by_cases hjl : j < st.data.length
    · rw [updateRows_getD i col v st.data 0 j hjl, if_neg (by push_cast; omega)]
    · have hges : (updateRows i col v st.data 0).length ≤ j := by
        rw [updateRows_length]; omega
      rw [List.getD_eq_getElem?_getD, List.getD_eq_getElem?_getD,
        List.getElem?_eq_none hges, List.getElem?_eq_none (by omega)]
  · exact updateRows_length i col v st.data 0

/-- C3 witness: updating the email of the only row of a concrete store
stores the new value. -/
theorem updateCell_frame_witness :
    getField ((updateCell stW3 0 "email" (Value.str "new")).data.getD (0 : ℤ).toNat []) "email" =
      Value.str "new" :=
  (updateCell_frame stW3 0 "email" (Value.str "new") (by decide) (by decide)).1

/-- C3 counterexample: updating the column named `"id"` replaces the row
identifier, so the claim that the identifier is always preserved fails. -/
theorem updateCell_id_not_preserved :
    getField ((updateCell stW3 0 "id" (Value.str "other")).data.getD 0 []) "id" ≠
      getField (stW3.data.getD 0 []) "id" := by decide

/-- C4 counterexample: with a session active on one cell and a non-empty
suggestion list, activating a different (non-null) cell keeps the previous
suggestions instead of clearing them. -/
theorem setActiveAutocompleteCell_keeps_suggestions :
    stC4.autocomplete.activeCellKey = some "r1-school" ∧
    stC4.autocomplete.suggestions ≠ [] ∧
    (setActiveAutocompleteCell stC4 (some "r2-school")).autocomplete.suggestions =
      stC4.autocomplete.suggestions ∧
    (setActiveAutocompleteCell stC4 (some "r2-school")).autocomplete.suggestions ≠ [] :=
  ⟨rfl, by decide, rfl, by decide⟩

/-- C4 (amended): `setActiveAutocompleteCell` makes the given cell active
and resets the highlighted index to `-1`, but the suggestion list is kept
whenever the new cell key is truthy and cleared only for a null/empty key;
the committed cell values (the data rows) and all other state are
unaffected. -/
theorem setActiveAutocompleteCell_spec (st : StoreState) (k : Option String) :
    (setActiveAutocompleteCell st k).autocomplete.activeCellKey = k ∧
    (setActiveAutocompleteCell st k).autocomplete.highlightedIndex = -1 ∧
    (setActiveAutocompleteCell st k).autocomplete.suggestions =
      (if jsTruthy k then st.autocomplete.suggestions else []) ∧
    (setActiveAutocompleteCell st k).autocomplete.searchQuery = st.autocomplete.searchQuery ∧
    (setActiveAutocompleteCell st k).autocomplete.isLoading = st.autocomplete.isLoading ∧
    (setActiveAutocompleteCell st k).data = st.data ∧
    (setActiveAutocompleteCell st k).cellErrors = st.cellErrors ∧
    (setActiveAutocompleteCell st k).duplicates = st.duplicates ∧
    (setActiveAutocompleteCell st k).isProcessing = st.isProcessing ∧
    (setActiveAutocompleteCell st k).fileName = st.fileName ∧
    (setActiveAutocompleteCell st k).currentPage = st.currentPage ∧
    (setActiveAutocompleteCell st k).pageSize = st.pageSize ∧
    (setActiveAutocompleteCell st k).columns = st.columns ∧
    (setActiveAutocompleteCell st k).selectedRowIds = st.selectedRowIds ∧
    (setActiveAutocompleteCell st k).isDeleteDialogOpen = st.isDeleteDialogOpen :=
  ⟨rfl, rfl, rfl, rfl, rfl, rfl, rfl, rfl, rfl, rfl, rfl, rfl, rfl, rfl, rfl⟩

/-- C5: deleting the selected rows of a 23-row store viewed on page 3
(page size 10) leaves 3 rows but still page 3, which exceeds the new total
page count of 1: the store never clamps the current page after a shrink. -/
theorem deleteSelectedRows_no_page_clamp :
    (deleteSelectedRows stC5).data.length = 3 ∧
    (deleteSelectedRows stC5).currentPage = 3 ∧
    totalPages (deleteSelectedRows stC5) = 1 ∧
    totalPages (deleteSelectedRows stC5) < (deleteSelectedRows stC5).currentPage :=
  ⟨by decide, by decide, by decide, by decide⟩

/-- C6: `deleteSelectedRows` removes exactly the rows whose identifier is
in the selection set (keeping the rest unchanged, in order, as a sublist),
clears the selection, closes the delete dialog, changes nothing else, and —
because deletion is by identifier — pagination changes made after selecting
do not affect which rows are removed. -/
theorem deleteSelectedRows_spec (st : StoreState) :
    (deleteSelectedRows st).data = st.data.filter (fun r => !rowSelected st.selectedRowIds r) ∧
    ((deleteSelectedRows st).data).Sublist st.data ∧
    (∀ r : Row, r ∈ (deleteSelectedRows st).data ↔
      r ∈ st.data ∧ rowSelected st.selectedRowIds r = false) ∧
    (deleteSelectedRows st).selectedRowIds = [] ∧
    (deleteSelectedRows st).isDeleteDialogOpen = false ∧
    (deleteSelectedRows st).cellErrors = st.cellErrors ∧
    (deleteSelectedRows st).duplicates = st.duplicates ∧
    (deleteSelectedRows st).isProcessing = st.isProcessing ∧
    (deleteSelectedRows st).fileName = st.fileName ∧
    (deleteSelectedRows st).currentPage = st.currentPage ∧
    (deleteSelectedRows st).pageSize = st.pageSize ∧
    (deleteSelectedRows st).columns = st.columns ∧
    (deleteSelectedRows st).autocomplete = st.autocomplete ∧
    (∀ p s : ℤ,
      (deleteSelectedRows (setPageSize (setCurrentPage st p) s)).data =
        (deleteSelectedRows st).data) := by
  refine ⟨rfl, List.filter_sublist st.data, ?_, rfl, rfl, rfl, rfl, rfl, rfl, rfl, rfl, rfl,
    rfl, fun p s => rfl⟩
  intro r
  show r ∈ st.data.filter _ ↔ _
  rw [List.mem_filter]
  simp [Bool.not_eq_true']

/-- C6 witness: in the concrete two-row store the selected row "r2" is
gone after deletion. -/
theorem deleteSelectedRows_spec_witness :
    ([("id", Value.str "r2"), ("email", Value.str "B")] : Row) ∉ (deleteSelectedRows stC6).data := by
  intro hm
  have h := ((deleteSelectedRows_spec stC6).2.2.1 _).mp hm
  exact absurd h.2 (by decide)

/-- C8: `openDeleteDialog` is a no-op on a state with an empty selection,
and on a non-empty selection it sets only the dialog-open flag. -/
theorem openDeleteDialog_spec (st : StoreState) :
    (st.selectedRowIds = [] → openDeleteDialog st = st) ∧
    (st.selectedRowIds ≠ [] → openDeleteDialog st = { st with isDeleteDialogOpen := true }) := by
  constructor
  · intro h
    unfold openDeleteDialog
    rw [h]
    simp
  · intro h
    unfold openDeleteDialog
    rw [if_pos (List.length_pos.mpr h)]

/-- C8 witness: the initial (empty-selection) store is left unchanged; the
concrete store with a selected row gets only the dialog flag set. -/
theorem openDeleteDialog_spec_witness :
    openDeleteDialog initialState = initialState ∧
    openDeleteDialog stC6 = { stC6 with isDeleteDialogOpen := true } :=
  ⟨(openDeleteDialog_spec initialState).1 rfl,
   (openDeleteDialog_spec stC6).2 (by decide)⟩

/-- C9: validating the age field yields no error exactly when the value
coerces to a number that is a whole number within the inclusive range
[0, 150]; in particular age -1 fails below the minimum, age 150 passes and
age 151 fails above the maximum. -/
theorem validateCellAge_spec :
    (∀ (v : Value) (row : ℤ),
      validateCellAge v row = none ↔
        ∃ q : ℚ, jsToNumber v = some q ∧ q.den = 1 ∧ 0 ≤ q ∧ q ≤ 150) ∧
    validateCellAge (Value.num (-1)) 0 =
      some { row := 0, column := "age", message := "Age cannot be negative",
             value := Value.num (-1) } ∧
    validateCellAge (Value.num 150) 0 = none ∧
    validateCellAge (Value.num 151) 0 =
      some { row := 0, column := "age", message := "Age cannot exceed 150",
             value := Value.num 151 } := by
  refine ⟨?_, by decide, by decide, by decide⟩
  intro v row
  rw [validateCellAge, Option.map_eq_none']
  exact ageCheck_none_iff v

/-- C10: `updateCell` at an out-of-range row position (negative or past the
end) never changes anything: the resulting state equals the input state. -/
theorem updateCell_out_of_range (st : StoreState) (i : ℤ) (col : String) (v : Value)
    (h : i < 0 ∨ (st.data.length : ℤ) ≤ i) : updateCell st i col v = st := by
  have hdata : updateRows i col v st.data 0 = st.data := by
    apply updateRows_id
    intro j hj
    rcases h with h | h <;> (push_cast; omega)
  show { st with data := updateRows i col v st.data 0 } = st
  rw [hdata]

/-- C10 witness: out-of-range updates on a concrete one-row store (position
-1 and position 5) leave the state unchanged. -/
theorem updateCell_out_of_range_witness :
    updateCell stW3 (-1) "email" (Value.str "x") = stW3 ∧
    updateCell stW3 5 "email" (Value.str "x") = stW3 :=
  ⟨updateCell_out_of_range stW3 (-1) "email" (Value.str "x") (Or.inl (by decide)),
   updateCell_out_of_range stW3 5 "email" (Value.str "x") (Or.inr (by decide))⟩

/-- C7: `fetchSchools` resolves to the empty list when the trimmed query is
shorter than 2 characters; otherwise it resolves to the mock schools whose
name contains the trimmed query case-insensitively, in source order, capped
at 10 results (hence a sublist of the source of length at most 10). -/
theorem fetchSchools_spec (q : String) :
    ((jsTrim q.data).length < 2 → fetchSchools q = []) ∧
    (2 ≤ (jsTrim q.data).length →
      fetchSchools q =
        (MOCK_SCHOOLS.filter
          (fun s => includesSub (jsLower (jsTrim q.data)) (jsLower s.name.data))).take 10 ∧
      (fetchSchools q).length ≤ 10 ∧
      (fetchSchools q).Sublist MOCK_SCHOOLS) := by
  constructor
  · intro h
    rw [fetchSchools, if_pos]
    simp [h]
  · intro h
    have hne : q.data.isEmpty = false := by
      cases hd : q.data with
      | nil => rw [hd] at h; exact absurd h (by decide)
      | cons c cs => rfl
    have hcond : (q.data.isEmpty || decide ((jsTrim q.data).length < 2)) = false := by
      rw [hne]
      simp
      omega
    have hfs : fetchSchools q =
        (MOCK_SCHOOLS.filter
          (fun s => includesSub (jsLower (jsTrim q.data)) (jsLower s.name.data))).take 10 := by
      rw [fetchSchools, if_neg (by rw [hcond]; exact Bool.false_ne_true), jsTrim_jsLower]
    refine ⟨hfs, ?_, ?_⟩
    · rw [hfs]
      simp [List.length_take]
    · rw [hfs]
      exact (List.take_sublist _ _).trans (List.filter_sublist _)

/-- C7 witness: the query "spring" (trimmed length 6) returns the two
Springfield schools, in source order. -/
theorem fetchSchools_spec_witness :
    2 ≤ (jsTrim "spring".data).length ∧
    fetchSchools "spring" =
      (MOCK_SCHOOLS.filter
        (fun s => includesSub (jsLower (jsTrim "spring".data)) (jsLower s.name.data))).take 10 ∧
    fetchSchools "spring" =
      [ ⟨"1", "Springfield Elementary School", some "Springfield", some "public"⟩
      , ⟨"2", "Springfield High School", some "Springfield", some "public"⟩ ] :=
  ⟨by decide, ((fetchSchools_spec "spring").2 (by decide)).1, by decide⟩
